import Mathlib

/- Shallow embedding of the moltworker agentic orchestration core:
the tool registry and confirmation gate (src/src/tools/registry.ts),
the pending-action store (src/r2/pending-actions.ts), the orchestration
loop and retrying model client (src/src/claude/index.ts), and the
webhook dedup / approve command handlers (src/src/telegram/webhook.ts).

Machine integers are modelled as `Nat`/`Int` (timestamps in ms are
non-negative and far below 2^53, where JS numbers are exact integers).
Asynchronous functions are modelled as pure functions; the durable R2
bucket is modelled as an explicit list-of-records store threaded through
each operation; observable side effects are collected in event traces.
-/

namespace Moltworker

/- Section: Configuration constants (src/config.ts) -/

def MAX_TOOL_ITERATIONS : Nat := 10

def PENDING_ACTION_TTL_MS : Nat := 600000

def DEFAULT_RETRY_DELAYS : List Nat := [2000, 5000, 15000]

def CRON_RETRY_DELAYS : List Nat := [5000, 15000, 30000, 60000]

/- Section: Pending actions (src/r2/pending-actions.ts)

A `PendingAction` record as persisted under the R2 key
`pending-actions/{chatId}/{id}.json`.  The `input` record
(`Record<string, unknown>` in the source) is modelled as an association
list from key to the stringified value. -/

abbrev ToolInput : Type := List (String × String)

structure PendingAction where
  id : String
  chatId : Int
  toolName : String
  input : ToolInput
  createdAt : Nat
  expiresAt : Nat
deriving DecidableEq

/-- The R2 bucket restricted to the `pending-actions/` key space: one
record per key `pending-actions/{chatId}/{id}.json`. -/
abbrev PendingStore : Type := List PendingAction

/-- Key equality for the R2 object key `pending-actions/{chatId}/{id}.json`. -/
def sameKey (chatId : Int) (actionId : String) (a : PendingAction) : Bool :=
  a.chatId == chatId && a.id == actionId

/-- Source: `savePendingAction` — `bucket.put` overwrites the record at the key. -/
def savePendingAction (store : PendingStore) (action : PendingAction) : PendingStore :=
  (List.filter (fun a => !sameKey action.chatId action.id a) store) ++ [action]

/-- Source: `deletePendingAction` — `bucket.delete` on the key. -/
def deletePendingAction (store : PendingStore) (chatId : Int) (actionId : String) : PendingStore :=
  List.filter (fun a => !sameKey chatId actionId a) store

/-- Source: `loadPendingAction` — keyed `bucket.get`; a record whose `expiresAt`
has passed is deleted and reported absent.  Returns the result together
with the store after any lazy-expiry deletion. -/
def loadPendingAction (store : PendingStore) (chatId : Int) (actionId : String)
    (now : Nat) : Option PendingAction × PendingStore :=
  match List.find? (fun a => sameKey chatId actionId a) store with
  | none => (none, store)
  | some action =>
      if action.expiresAt < now then
        (none, deletePendingAction store chatId actionId)
      else
        (some action, store)

/-- Comparator of `loadPendingActions`: `(a, b) => b.createdAt - a.createdAt`,
i.e. sort descending by `createdAt`. -/
def newestFirst (a b : PendingAction) : Bool :=
  decide (b.createdAt ≤ a.createdAt)

/-- The chat's listed records that survive lazy expiry inside
`loadPendingActions`. -/
def chatPending (store : PendingStore) (chatId : Int) (now : Nat) :
    List PendingAction :=
  List.filter (fun a => !decide (a.expiresAt < now))
    (List.filter (fun a => a.chatId == chatId) store)

/-- Source: `loadPendingActions` — lists `pending-actions/{chatId}/`, deletes every
expired record it encounters, keeps the rest, and sorts them newest first.
Returns the kept records together with the store after the deletions. -/
def loadPendingActions (store : PendingStore) (chatId : Int) (now : Nat) :
    List PendingAction × PendingStore :=
  (List.mergeSort (chatPending store chatId now) newestFirst,
   List.filter (fun a => !(a.chatId == chatId && decide (a.expiresAt < now))) store)

/- Section: Tool system (src/src/tools/types.ts, src/src/tools/registry.ts)

An executor is `(input, ctx) → Promise<{result, isError?}>`; it is
modelled as a pure function of the input (the context carries only
capability handles), whose outcome is either a returned result or a
thrown exception message. -/

structure ToolDefinition where
  name : String
  description : String
deriving DecidableEq

structure ToolExecutionResult where
  result : String
  isError : Option Bool
deriving DecidableEq

inductive ExecOutcome where
  | ok (res : ToolExecutionResult)
  | throws (msg : String)
deriving DecidableEq

abbrev ToolExecutor : Type := ToolInput → ExecOutcome

structure RegisteredTool where
  definition : ToolDefinition
  execute : ToolExecutor
  requiresConfirmation : Bool

structure ToolUseBlock where
  id : String
  name : String
  input : ToolInput
deriving DecidableEq

/-- The module-level `Map<string, RegisteredTool>`, modelled as a list in
insertion order (the iteration order of a JS `Map`). -/
abbrev Registry : Type := List RegisteredTool

/-- Source: `options?: { requiresConfirmation?: boolean }` of `registerTool`. -/
structure RegisterOptions where
  requiresConfirmation : Option Bool

/-- Lookup in the `Map` by tool name (`registry.get(name)`). -/
def getTool (registry : Registry) (name : String) : Option RegisteredTool :=
  List.find? (fun t => t.definition.name == name) registry

/-- Source: `registerTool` — `Map.set` keyed by `definition.name`: an existing key
keeps its position and gets the new value, a new key is appended.
`requiresConfirmation` defaults to `false` (`options?.requiresConfirmation ?? false`). -/
def mkRegistered (definition : ToolDefinition) (execute : ToolExecutor)
    (options : Option RegisterOptions) : RegisteredTool :=
  { definition := definition
    execute := execute
    requiresConfirmation := ((options.bind (·.requiresConfirmation)).getD false) }

def registerTool (registry : Registry) (definition : ToolDefinition)
    (execute : ToolExecutor) (options : Option RegisterOptions) : Registry :=
  if List.any registry (fun t => t.definition.name == definition.name) then
    List.map
      (fun t => if t.definition.name == definition.name
                then mkRegistered definition execute options else t)
      registry
  else
    registry ++ [mkRegistered definition execute options]

/-- Source: `getToolDefinitions` — all registered definitions in insertion order. -/
def getToolDefinitions (registry : Registry) : List ToolDefinition :=
  List.map (fun t => t.definition) registry

/-- Source: `summarizeInput` — a short human-readable synopsis of the tool input.
JS truthiness of a string property is modelled as "present and non-empty". -/
def truthyField (input : ToolInput) (key : String) : Option String :=
  match List.find? (fun kv => kv.1 == key) input with
  | none => none
  | some kv => if kv.2 == "" then none else some kv.2

def take100 (s : String) : String := String.mk (s.toList.take 100)

def take80 (s : String) : String := String.mk (s.toList.take 80)

def summarizeInput (_toolName : String) (input : ToolInput) : String :=
  match truthyField input "text" with
  | some v => "\"" ++ take100 v ++ "\""
  | none =>
    match truthyField input "content" with
    | some v => "\"" ++ take100 v ++ "\""
    | none =>
      match truthyField input "title" with
      | some v => "title: \"" ++ take80 v ++ "\""
      | none =>
        let keys := String.intercalate ", " (List.map Prod.fst input)
        if keys == "" then "(no parameters)" else "params: " ++ keys

/-- Observable side effects of the tool dispatch layer and the webhook
command handlers. -/
inductive Ev where
  | executorRun (toolName : String) (input : ToolInput)
  | pendingSaved (action : PendingAction)
  | pendingDeleted (id : String)
  | sentMessage (text : String)
deriving DecidableEq

structure ToolExecutionOutput where
  result : ToolExecutionResult
  wasConfirmationGated : Bool
  pendingActionId : Option String
deriving DecidableEq

/-- The `try { await tool.execute(...) } catch` wrapper: a thrown
exception becomes a normal tool-error result. -/
def catchResult (o : ExecOutcome) : ToolExecutionResult :=
  match o with
  | .ok res => res
  | .throws msg => { result := "Tool error: " ++ msg, isError := some true }

/-- Tail of the confirmation-gate result string. -/
def gateInstr : String :=
  ". Tell the user to reply /approve to confirm or /reject to cancel."

/-- The confirmation-gate result string returned instead of running a
gated tool. -/
def gatePrompt (toolName : String) (input : ToolInput) : String :=
  "This action requires user approval. I've queued it for confirmation. Action: "
    ++ toolName ++ " — " ++ summarizeInput toolName input ++ gateInstr

/-- The `PendingAction` persisted by the confirmation gate. -/
def gatedAction (block : ToolUseBlock) (chatId : Int) (now : Nat)
    (freshId : String) : PendingAction :=
  { id := freshId
    chatId := chatId
    toolName := block.name
    input := block.input
    createdAt := now
    expiresAt := now + PENDING_ACTION_TTL_MS }

/-- Source: `executeTool` — dispatch through the registry and the confirmation
gate.  `now` is `Date.now()` and `freshId` the `crypto.randomUUID()`
draw.  Returns the output, the trace of observable side effects, and the
pending-action store after the call. -/
def executeTool (registry : Registry) (block : ToolUseBlock) (chatId : Int)
    (store : PendingStore) (now : Nat) (freshId : String) :
    ToolExecutionOutput × List Ev × PendingStore :=
  match getTool registry block.name with
  | none =>
      ({ result := { result := "Unknown tool: " ++ block.name, isError := some true }
         wasConfirmationGated := false
         pendingActionId := none }, [], store)
  | some tool =>
      if tool.requiresConfirmation then
        ({ result := { result := gatePrompt block.name block.input, isError := none }
           wasConfirmationGated := true
           pendingActionId := some freshId },
         [.pendingSaved (gatedAction block chatId now freshId)],
         savePendingAction store (gatedAction block chatId now freshId))
      else
        ({ result := catchResult (tool.execute block.input)
           wasConfirmationGated := false
           pendingActionId := none },
         [.executorRun block.name block.input], store)

/-- Source: `executeToolDirect` — bypasses the confirmation gate (used by the
approve command). -/
def executeToolDirect (registry : Registry) (toolName : String)
    (input : ToolInput) : ToolExecutionResult × List Ev :=
  match getTool registry toolName with
  | none => ({ result := "Unknown tool: " ++ toolName, isError := some true }, [])
  | some tool => (catchResult (tool.execute input), [.executorRun toolName input])

/- Section: Relevance filter (src/src/tools/registry.ts) -/

/-- Source: `TOOL_CATEGORIES` — tool categories for dynamic selection. -/
def TOOL_CATEGORIES : List (String × List String) :=
  [("core", ["web_search", "fetch_url", "list_skills", "read_skill", "send_media_to_chat"]),
   ("skills", ["update_skill", "read_soul", "update_soul"]),
   ("learning", ["get_feedback_summary", "analyze_and_improve"]),
   ("media", ["generate_image", "generate_image_fast", "generate_graphic", "generate_video"]),
   ("twitter", ["post_tweet", "reply_to_tweet", "delete_tweet", "get_mentions", "get_tweet_analytics"]),
   ("youtube", ["get_channel_stats", "list_youtube_videos", "get_video_stats", "update_youtube_video", "reply_to_youtube_comment"]),
   ("instagram", ["get_instagram_profile", "get_instagram_media", "get_instagram_insights", "create_instagram_post", "reply_to_instagram_comment"]),
   ("linkedin", ["get_linkedin_profile", "get_linkedin_analytics", "create_linkedin_post", "delete_linkedin_post"]),
   ("moltbook", ["moltbook_get_feed", "moltbook_get_posts", "moltbook_create_post", "moltbook_comment", "moltbook_upvote", "moltbook_search", "moltbook_check_dms", "moltbook_get_post", "moltbook_list_submolts"]),
   ("polymarket", ["polymarket_scan_markets", "polymarket_search_markets", "polymarket_get_market", "polymarket_get_positions", "polymarket_get_portfolio", "polymarket_get_balance", "polymarket_get_orders"])]

/-- Source: `CATEGORY_KEYWORDS` — keyword → category mapping. -/
def CATEGORY_KEYWORDS : List (String × List String) :=
  [("twitter", ["twitter", "tweet", "tweets", "x.com"]),
   ("youtube", ["youtube", "yt", "video", "channel"]),
   ("instagram", ["instagram", "ig", "insta", "reel", "reels"]),
   ("linkedin", ["linkedin"]),
   ("moltbook", ["moltbook", "molt"]),
   ("media", ["image", "photo", "picture", "graphic", "generate", "design", "video", "thumbnail"]),
   ("skills", ["skill", "soul", "personality", "identity"]),
   ("learning", ["feedback", "improve", "learn"]),
   ("polymarket", ["polymarket", "prediction", "poly", "bet", "wager", "odds", "trading", "market scan"])]

/-- Source: `TOOL_CATEGORIES[category] || []`. -/
def categoryTools (category : String) : List String :=
  match List.find? (fun c => c.1 == category) TOOL_CATEGORIES with
  | none => []
  | some c => c.2

/-- Source: `lower.includes(kw)` — substring test. -/
def strIncludes (s kw : String) : Bool := decide (kw.toList <:+: s.toList)

/-- One step of the keyword loop: when any keyword of the category rule
occurs in the lowercased message, add the category's tools. -/
def kwStep (lower : String) (acc : List String) (ck : String × List String) :
    List String :=
  if List.any ck.2 (fun kw => strIncludes lower kw) then acc ++ categoryTools ck.1
  else acc

/-- Inner step of the previously-used loop: pull in a whole category when
it contains the used tool name. -/
def catStep (name : String) (acc2 : List String) (cat : String × List String) :
    List String :=
  if List.contains cat.2 name then acc2 ++ cat.2 else acc2

/-- One step of the previously-used loop: add the used name itself, then
every category containing it. -/
def usedStep (acc : List String) (name : String) : List String :=
  List.foldl (catStep name) (acc ++ [name]) TOOL_CATEGORIES

/-- The `Set<string>` of selected tool names built by
`getFilteredToolDefinitions`, as a list in insertion order (only
membership matters downstream). -/
def selectedNames (message : String) (usedToolNames : Option (List String)) :
    List String :=
  match usedToolNames with
  | none =>
      List.foldl (kwStep message.toLower) (categoryTools "core") CATEGORY_KEYWORDS
  | some used =>
      List.foldl usedStep
        (List.foldl (kwStep message.toLower) (categoryTools "core") CATEGORY_KEYWORDS)
        used

/-- Source: `getFilteredToolDefinitions` — registered definitions whose name is in
the selected set, in registry order. -/
def getFilteredToolDefinitions (registry : Registry) (message : String)
    (usedToolNames : Option (List String)) : List ToolDefinition :=
  List.map (fun t => t.definition)
    (List.filter (fun t => List.contains (selectedNames message usedToolNames) t.definition.name)
      registry)

/- Section: Webhook handlers (src/src/telegram/webhook.ts) -/

/-- Outcome of the `/approve` command handler. -/
structure ApproveOutcome where
  events : List Ev
  result : Option ToolExecutionResult
  newStore : PendingStore

/-- The `/approve` case of `handleCommand`: load the pending actions for
the chat (lazy expiry + newest first), take the first, execute it
directly, then delete its record, and report the executor's result.
(`sendChatAction` and the HTML formatting of the reply are elided; the
reply text itself is traced.) -/
def approveCommand (registry : Registry) (store : PendingStore) (chatId : Int)
    (now : Nat) : ApproveOutcome :=
  let loaded := loadPendingActions store chatId now
  match loaded.1 with
  | [] =>
      { events := [.sentMessage "No pending actions to approve."]
        result := none
        newStore := loaded.2 }
  | action :: _ =>
      let executed := executeToolDirect registry action.toolName action.input
      let store2 := deletePendingAction loaded.2 chatId action.id
      let reply :=
        if executed.1.isError.getD false then "Action failed: " ++ executed.1.result
        else "Action approved and executed!\n\n" ++ executed.1.result
      { events := executed.2 ++ [.pendingDeleted action.id, .sentMessage reply]
        result := some executed.1
        newStore := store2 }

/-- The `/reject` case of `handleCommand`: same lookup, delete without
executing. -/
def rejectCommand (store : PendingStore) (chatId : Int) (now : Nat) :
    ApproveOutcome :=
  let loaded := loadPendingActions store chatId now
  match loaded.1 with
  | [] =>
      { events := [.sentMessage "No pending actions to reject."]
        result := none
        newStore := loaded.2 }
  | action :: _ =>
      { events := [.pendingDeleted action.id,
                   .sentMessage ("Action cancelled: " ++ action.toolName)]
        result := none
        newStore := deletePendingAction loaded.2 chatId action.id }

/-- Mutating steps of `processUpdate`, at the granularity the dedup claim
needs: the marker write, then everything after it (collapsed into one
event — none of it runs when the marker already exists). -/
inductive UpdateEv where
  | putMarker (key : String)
  | restOfProcessing
deriving DecidableEq

/-- The dedup key `locks/update_${updateId}`. -/
def dedupeKey (updateId : Nat) : String := "locks/update_" ++ toString updateId

/-- The dedup head of `processUpdate`: check `bucket.head` on the dedup
key; when present, return with no side effects (only a log line);
otherwise write the marker first and only then continue processing.
`markers` is the set of existing dedup keys in the bucket. -/
def processUpdate (markers : List String) (updateId : Nat) :
    List UpdateEv × List String :=
  if List.contains markers (dedupeKey updateId) then
    ([], markers)
  else
    ([.putMarker (dedupeKey updateId), .restOfProcessing],
     markers ++ [dedupeKey updateId])

/- Section: Retrying model client (src/src/claude/index.ts, `fetchWithRetry`) -/

structure HttpResponse where
  status : Nat
  body : String
deriving DecidableEq

/-- Source: `response.ok` — status in the 2xx range. -/
def respOk (status : Nat) : Bool := decide (200 ≤ status ∧ status < 300)

inductive FetchOutcome where
  | success (status : Nat) (body : String)
  | rateLimitedErr
  | invalidKeyErr
  | apiErr (status : Nat) (body : String)
deriving DecidableEq

/-- The non-retry arm of the `fetchWithRetry` loop body: classify the
response once no further retry is possible for it. -/
def settleResponse (r : HttpResponse) : FetchOutcome :=
  if !respOk r.status then
    if r.status == 429 then .rateLimitedErr
    else if r.status == 401 then .invalidKeyErr
    else .apiErr r.status r.body
  else .success r.status r.body

/-- The `for (attempt = 0; attempt <= retryDelays.length; attempt++)` loop
of `fetchWithRetry`.  `responses` gives the response of each attempt (the
network oracle); `remaining` is the unconsumed tail of the retry-delay
schedule.  Returns the outcome, the total number of attempts made, and
the delays actually slept. -/
def fetchGo (responses : Nat → HttpResponse) (attempt : Nat) :
    (remaining : List Nat) → FetchOutcome × Nat × List Nat
  | [] => (settleResponse (responses attempt), attempt + 1, [])
  | d :: rest =>
      if (responses attempt).status == 429 then
        ((fetchGo responses (attempt + 1) rest).1,
         (fetchGo responses (attempt + 1) rest).2.1,
         d :: (fetchGo responses (attempt + 1) rest).2.2)
      else
        (settleResponse (responses attempt), attempt + 1, [])

/-- Source: `fetchWithRetry` over an abstract network oracle. -/
def fetchWithRetry (responses : Nat → HttpResponse) (retryDelays : List Nat) :
    FetchOutcome × Nat × List Nat :=
  fetchGo responses 0 retryDelays

/- Section: Orchestration loop (src/src/claude/index.ts, `callClaude`)

The loop is modelled against two oracles: `respond i` is the parsed
model-service response of the `i`-th call of the turn (1-based, the
value of `iterations` during that call), and `elapsedAt i` is
`Date.now() - startTime` observed at the top-of-loop boundary check when
`iterations = i`.  Tool execution, usage accounting, pacing sleeps and
the iteration callback have no effect on control flow or on the returned
text and are elided; whether the response requests tools and what text
it carries are all the loop inspects. -/

structure ModelResponse where
  /-- Source: `extractText(data.content)` — the joined text blocks (`""` if none). -/
  text : String
  /-- Source: `data.stop_reason === 'tool_use'`. -/
  stopToolUse : Bool
  /-- Source: `data.error` is present. -/
  hasError : Bool
  /-- Source: `data.error.message` when present. -/
  errorMessage : String

structure LoopEnv where
  respond : Nat → ModelResponse
  elapsedAt : Nat → Nat
  /-- whether `options.executeTools` was supplied. -/
  hasExecutor : Bool

structure LoopResult where
  text : String
  iterations : Nat
  /-- Source: `true` when the turn ended by falling out of the `while` loop
  (iteration cap or wall-clock deadline), `false` on the in-loop return. -/
  exhausted : Bool
deriving DecidableEq

/-- A run of the loop: the outcome (a thrown `Error` is `.error`), plus
the boundary indices (`iterations` value before the increment) of every
model-service call that was performed. -/
structure LoopRun where
  outcome : Except String LoopResult
  calls : List Nat

def exhaustionText : String :=
  "I ran out of time processing your request. Here is what I completed so far."

def noResponseText : String := "(No response)"

/-- The fall-through return after the `while` loop:
`lastText || 'I ran out of time …'`. -/
def exhaustResult (lastText : String) (iterations : Nat) : LoopResult :=
  { text := if lastText ≠ "" then lastText else exhaustionText
    iterations := iterations
    exhausted := true }

/-- Source: `if (iterationText) lastText = iterationText` for the `i`-th call. -/
def updText (env : LoopEnv) (i : Nat) (lastText : String) : String :=
  if (env.respond i).text ≠ "" then (env.respond i).text else lastText

/-- One turn of `callClaude`, with `fuel = MAX_TOOL_ITERATIONS - iterations`
capturing the `while (iterations < MAX_TOOL_ITERATIONS)` condition and
`deadline = WALL_CLOCK_TIMEOUT_MS`. -/
def loopGo (env : LoopEnv) (deadline : Nat) :
    (fuel iterations : Nat) → (lastText : String) → LoopRun
  | 0, iterations, lastText =>
      { outcome := .ok (exhaustResult lastText iterations), calls := [] }
  | fuel + 1, iterations, lastText =>
      if deadline < env.elapsedAt iterations then
        { outcome := .ok (exhaustResult lastText iterations), calls := [] }
      else if (env.respond (iterations + 1)).hasError = true then
        { outcome := .error
            ("Claude API error: " ++ (env.respond (iterations + 1)).errorMessage)
          calls := [iterations] }
      else if (env.respond (iterations + 1)).stopToolUse = false
           ∨ env.hasExecutor = false then
        { outcome := .ok
            { text := if updText env (iterations + 1) lastText ≠ ""
                      then updText env (iterations + 1) lastText
                      else noResponseText
              iterations := iterations + 1
              exhausted := false }
          calls := [iterations] }
      else
        { outcome :=
            (loopGo env deadline fuel (iterations + 1)
              (updText env (iterations + 1) lastText)).outcome
          calls := iterations ::
            (loopGo env deadline fuel (iterations + 1)
              (updText env (iterations + 1) lastText)).calls }

/-- Source: `callClaude` for one turn. -/
def callClaude (env : LoopEnv) (deadline : Nat) : LoopRun :=
  loopGo env deadline MAX_TOOL_ITERATIONS 0 ""

/-- The `lastText` accumulator replayed over a call trace: the last
non-empty response text, starting from `acc`. -/
def lastTextFrom (env : LoopEnv) (acc : String) (calls : List Nat) : String :=
  List.foldl
    (fun t b => if (env.respond (b + 1)).text ≠ "" then (env.respond (b + 1)).text else t)
    acc calls

/- Section: theorems -/

/-- Claim C8: every read path over pending actions (the keyed
`loadPendingAction` and the chat-wide `loadPendingActions`) treats a
record whose `expiresAt` has passed as absent — it never appears in the
returned value — and deletes it from the store. -/
theorem lazy_expiry_on_reads (store : PendingStore) (chatId : Int)
    (actionId : String) (now : Nat) :
    (∀ a ∈ (loadPendingActions store chatId now).1, ¬ a.expiresAt < now) ∧
    (∀ a ∈ store, a.chatId = chatId → a.expiresAt < now →
      a ∉ (loadPendingActions store chatId now).2) ∧
    (∀ a, (loadPendingAction store chatId actionId now).1 = some a →
      ¬ a.expiresAt < now) ∧
    (∀ a, List.find? (sameKey chatId actionId) store = some a →
      a.expiresAt < now →
      (loadPendingAction store chatId actionId now).1 = none ∧
      ∀ b ∈ (loadPendingAction store chatId actionId now).2,
        sameKey chatId actionId b = false) := by
  refine ⟨?_, ?_, ?_, ?_⟩
  · intro a ha
    have h1 : a ∈ List.filter (fun a => !decide (a.expiresAt < now))
        (List.filter (fun a => a.chatId == chatId) store) := by
      simpa [loadPendingActions, chatPending] using List.mem_mergeSort.mp ha
    have h2 := (List.mem_filter.mp h1).2
    simpa using h2
  · intro a ha hchat hexp hmem
    have h1 : a ∈ List.filter
        (fun a => !(a.chatId == chatId && decide (a.expiresAt < now))) store := by
      simpa [loadPendingActions] using hmem
    have h2 := (List.mem_filter.mp h1).2
    simp [hchat, hexp] at h2
  · intro a ha
    unfold loadPendingAction at ha
    cases hfind : List.find? (sameKey chatId actionId) store with
    | none => simp [hfind] at ha
    | some b =>
        simp only [hfind] at ha
        by_cases hb : b.expiresAt < now
        · simp [hb] at ha
        · simp [hb] at ha
          simpa [← ha] using hb
  · intro a hfind hexp
    constructor
    · unfold loadPendingAction
      simp [hfind, hexp]
    · intro b hb
      unfold loadPendingAction at hb
      simp only [hfind, hexp, if_pos] at hb
      have h2 : b ∈ store ∧ sameKey chatId actionId b = false := by
        simpa [deletePendingAction, List.mem_filter] using hb
      exact h2.2

/-- A live and an expired pending action used in witnesses. -/
def wLive : PendingAction :=
  { id := "a-live", chatId := 7, toolName := "post_tweet"
    input := [("text", "hi")], createdAt := 100, expiresAt := 2000 }

def wExpired : PendingAction :=
  { id := "a-old", chatId := 7, toolName := "post_tweet"
    input := [("text", "old")], createdAt := 50, expiresAt := 900 }

/-- Witness for C8: at time 1000 the expired record is gone from the
store and the keyed load reports it absent. -/
theorem lazy_expiry_on_reads_witness :
    wExpired ∉ (loadPendingActions [wLive, wExpired] 7 1000).2 ∧
    (loadPendingAction [wLive, wExpired] 7 "a-old" 1000).1 = none := by
  constructor
  · exact (lazy_expiry_on_reads [wLive, wExpired] 7 "a-old" 1000).2.1 wExpired
      (by decide) (by decide) (by decide)
  · exact ((lazy_expiry_on_reads [wLive, wExpired] 7 "a-old" 1000).2.2.2 wExpired
      (by decide) (by decide)).1

/-- Claim C5: `processUpdate` first checks the dedup marker keyed by the
update id; when the marker exists it aborts with no side effects at all,
and otherwise it creates the marker before any other processing.
Consequently a second pass over the same update id always aborts. -/
theorem dedup_before_processing (markers : List String) (updateId : Nat) :
    (List.contains markers (dedupeKey updateId) = true →
      processUpdate markers updateId = ([], markers)) ∧
    (List.contains markers (dedupeKey updateId) = false →
      (processUpdate markers updateId).1 =
        [.putMarker (dedupeKey updateId), .restOfProcessing] ∧
      (processUpdate markers updateId).2 = markers ++ [dedupeKey updateId]) ∧
    processUpdate (processUpdate markers updateId).2 updateId =
      ([], (processUpdate markers updateId).2) := by
  refine ⟨?_, ?_, ?_⟩
  · intro h
    simp [processUpdate, List.elem_iff.mp h]
  · intro h
    have hnm : dedupeKey updateId ∉ markers := by simpa using h
    simp [processUpdate, hnm]
  · by_cases h : dedupeKey updateId ∈ markers
    · simp [processUpdate, h]
    · have hmem : dedupeKey updateId ∈ markers ++ [dedupeKey updateId] :=
        List.mem_append_right _ (List.mem_singleton_self _)
      simp [processUpdate, h, hmem]

/-- Witness for C5: update 42 creates its marker first; a duplicate
delivery of update 42 aborts with no side effects. -/
theorem dedup_before_processing_witness :
    (processUpdate [] 42).1 =
      [.putMarker (dedupeKey 42), .restOfProcessing] ∧
    processUpdate ["locks/update_42"] 42 = ([], ["locks/update_42"]) := by
  exact ⟨((dedup_before_processing [] 42).2.1 (by decide)).1,
    (dedup_before_processing ["locks/update_42"] 42).1 (by decide)⟩

/-- Looking up a tool right after registering it yields the just-built
registration, whether the name was new (append) or existing (overwrite
in place). -/
theorem find?_map_overwrite (d : ToolDefinition) (e : ToolExecutor)
    (o : Option RegisterOptions) (l : List RegisteredTool)
    (h : List.any l (fun t => t.definition.name == d.name) = true) :
    List.find? (fun t => t.definition.name == d.name)
      (List.map
        (fun t => if t.definition.name == d.name
                  then mkRegistered d e o else t) l)
      = some (mkRegistered d e o) := by
  induction l with
  | nil => simp at h
  | cons t ts ih =>
      rw [List.map_cons, List.find?_cons]
      by_cases ht : (t.definition.name == d.name) = true
      · rw [if_pos ht]
        have hself : ((mkRegistered d e o).definition.name == d.name) = true := by
          simp [mkRegistered]
        simp only [hself]
      · rw [if_neg ht]
        have ht' : (t.definition.name == d.name) = false := by
          simpa using ht
        have hts : List.any ts (fun t => t.definition.name == d.name) = true := by
          simpa [List.any_cons, ht'] using h
        simp only [ht']
        exact ih hts

theorem getTool_registerTool_self (registry : Registry) (d : ToolDefinition)
    (e : ToolExecutor) (o : Option RegisterOptions) :
    getTool (registerTool registry d e o) d.name = some (mkRegistered d e o) := by
  unfold registerTool getTool
  by_cases hany : List.any registry (fun t => t.definition.name == d.name) = true
  · rw [if_pos hany]
    exact find?_map_overwrite d e o registry hany
  · rw [if_neg hany]
    have hnone : List.find? (fun t => t.definition.name == d.name) registry = none :=
      List.find?_eq_none.mpr (by
        intro t ht
        exact fun hpt => hany (List.any_eq_true.mpr ⟨t, ht, hpt⟩))
    have hself : ((mkRegistered d e o).definition.name == d.name) = true := by
      simp [mkRegistered]
    rw [List.find?_append, hnone]
    simp only [List.find?_cons, hself, Option.or]

/-- Claim C10 (implicit): registering a tool with no options argument, or
with options that omit `requiresConfirmation`, registers it with
`requiresConfirmation = false`, and a request for that tool is never
confirmation-gated — `executeTool` runs its executor immediately (the
store is untouched and no pending action is created). -/
theorem register_without_flag_runs_immediately (registry : Registry)
    (d : ToolDefinition) (e : ToolExecutor) (bid : String) (inp : ToolInput)
    (chatId : Int) (store : PendingStore) (now : Nat) (fid : String) :
    ((getTool (registerTool registry d e none) d.name).map
        (·.requiresConfirmation) = some false ∧
      executeTool (registerTool registry d e none) ⟨bid, d.name, inp⟩
          chatId store now fid =
        ({ result := catchResult (e inp)
           wasConfirmationGated := false
           pendingActionId := none }, [.executorRun d.name inp], store)) ∧
    ((getTool (registerTool registry d e
          (some { requiresConfirmation := none })) d.name).map
        (·.requiresConfirmation) = some false ∧
      executeTool (registerTool registry d e
          (some { requiresConfirmation := none })) ⟨bid, d.name, inp⟩
          chatId store now fid =
        ({ result := catchResult (e inp)
           wasConfirmationGated := false
           pendingActionId := none }, [.executorRun d.name inp], store)) := by
  have main : ∀ o : Option RegisterOptions,
      (o.bind (·.requiresConfirmation)).getD false = false →
      (getTool (registerTool registry d e o) d.name).map
          (·.requiresConfirmation) = some false ∧
        executeTool (registerTool registry d e o) ⟨bid, d.name, inp⟩
            chatId store now fid =
          ({ result := catchResult (e inp)
             wasConfirmationGated := false
             pendingActionId := none }, [.executorRun d.name inp], store) := by
    intro o ho
    have hget := getTool_registerTool_self registry d e o
    constructor
    · simp [hget, mkRegistered, ho]
    · unfold executeTool
      simp only [hget]
      simp [mkRegistered, ho]
  exact ⟨main none rfl, main (some { requiresConfirmation := none }) rfl⟩

/-- Fuel-indexed bound on the loop: at most `fuel` model-service calls
are made, and every call happens at a boundary where the elapsed time
had not yet passed the deadline. -/
theorem loopGo_bound (env : LoopEnv) (deadline : Nat) :
    ∀ (fuel iterations : Nat) (lastText : String),
      (loopGo env deadline fuel iterations lastText).calls.length ≤ fuel ∧
      (∀ b ∈ (loopGo env deadline fuel iterations lastText).calls,
        env.elapsedAt b ≤ deadline) := by
  intro fuel
  induction fuel with
  | zero =>
      intro iterations lastText
      refine ⟨by simp [loopGo], ?_⟩
      intro b hb
      simp [loopGo] at hb
  | succ n ih =>
      intro iterations lastText
      unfold loopGo
      by_cases hd : deadline < env.elapsedAt iterations
      · rw [if_pos hd]
        refine ⟨by simp, ?_⟩
        intro b hb
        simp at hb
      · rw [if_neg hd]
        have hd' : env.elapsedAt iterations ≤ deadline := Nat.le_of_not_lt hd
        by_cases he : (env.respond (iterations + 1)).hasError = true
        · rw [if_pos he]
          refine ⟨by simp, ?_⟩
          intro b hb
          simp at hb
          simpa [hb] using hd'
        · rw [if_neg he]
          by_cases hs : (env.respond (iterations + 1)).stopToolUse = false
              ∨ env.hasExecutor = false
          · rw [if_pos hs]
            refine ⟨by simp, ?_⟩
            intro b hb
            simp at hb
            simpa [hb] using hd'
          · rw [if_neg hs]
            obtain ⟨ihlen, ihmem⟩ := ih (iterations + 1) (updText env (iterations + 1) lastText)
            refine ⟨by simpa using Nat.succ_le_succ ihlen, ?_⟩
            intro b hb
            simp only [List.mem_cons] at hb
            rcases hb with hb | hb
            · simpa [hb] using hd'
            · exact ihmem b hb

/-- Claim C2: `callClaude` performs at most `MAX_TOOL_ITERATIONS`
model-service calls in one turn, and every call is made at an iteration
boundary at which the wall-clock deadline had not yet passed — once the
deadline has passed no further iteration starts. -/
theorem callClaude_iteration_and_deadline_bound (env : LoopEnv) (deadline : Nat) :
    (callClaude env deadline).calls.length ≤ MAX_TOOL_ITERATIONS ∧
    ∀ b ∈ (callClaude env deadline).calls, env.elapsedAt b ≤ deadline :=
  loopGo_bound env deadline MAX_TOOL_ITERATIONS 0 ""

/-- A simple oracle: every response is plain text with no tool use. -/
def envPlain : LoopEnv :=
  { respond := fun _ => { text := "hi", stopToolUse := false
                          hasError := false, errorMessage := "" }
    elapsedAt := fun _ => 0
    hasExecutor := false }

/-- Witness for C2 at a concrete oracle and deadline. -/
theorem callClaude_iteration_and_deadline_bound_witness :
    (callClaude envPlain 1000).calls.length ≤ MAX_TOOL_ITERATIONS ∧
    ∀ b ∈ (callClaude envPlain 1000).calls, envPlain.elapsedAt b ≤ 1000 :=
  callClaude_iteration_and_deadline_bound envPlain 1000

/-- An oracle whose first response is the text `"hello"` with a tool-use
stop reason, after which the wall clock is far past any deadline. -/
def envC4 : LoopEnv :=
  { respond := fun _ => { text := "hello", stopToolUse := true
                          hasError := false, errorMessage := "" }
    elapsedAt := fun i => if i = 0 then 0 else 999999
    hasExecutor := true }

/-- Counterexample to claim C4 as stated: with deadline 10 ms the run of
`envC4` terminates by the deadline after one call (`exhausted = true`),
but its returned text is the accumulated `"hello"` — it does not carry
the "ran out of time" exhaustion marker. -/
theorem exhaustion_marker_counterexample :
    (callClaude envC4 10).outcome =
      Except.ok { text := "hello", iterations := 1, exhausted := true } ∧
    ¬ (exhaustionText.toList <:+: "hello".toList) := by
  constructor
  · rfl
  · decide

/-- Exhaustion exits of the loop: the result text is the replayed last
non-empty response text when one exists, and the marker text only
otherwise; thrown errors stem only from an error-carrying model
response, never from exhaustion; and calls stay within fuel and
deadline. -/
theorem loopGo_exhaustion (env : LoopEnv) (deadline : Nat) :
    ∀ (fuel iterations : Nat) (lastText : String),
      (∀ r, (loopGo env deadline fuel iterations lastText).outcome = .ok r →
        r.exhausted = true →
        r.text =
          (if lastTextFrom env lastText (loopGo env deadline fuel iterations lastText).calls ≠ ""
           then lastTextFrom env lastText (loopGo env deadline fuel iterations lastText).calls
           else exhaustionText)) ∧
      (∀ msg, (loopGo env deadline fuel iterations lastText).outcome = .error msg →
        ∃ b ∈ (loopGo env deadline fuel iterations lastText).calls,
          (env.respond (b + 1)).hasError = true) := by
  intro fuel
  induction fuel with
  | zero =>
      intro iterations lastText
      constructor
      · intro r hr _
        simp [loopGo] at hr
        simp [← hr, exhaustResult, lastTextFrom, loopGo]
      · intro msg hmsg
        simp [loopGo] at hmsg
  | succ n ih =>
      intro iterations lastText
      unfold loopGo
      by_cases hd : deadline < env.elapsedAt iterations
      · rw [if_pos hd]
        constructor
        · intro r hr _
          simp only [Except.ok.injEq] at hr
          simp [← hr, exhaustResult, lastTextFrom]
        · intro msg hmsg
          simp at hmsg
      · rw [if_neg hd]
        by_cases he : (env.respond (iterations + 1)).hasError = true
        · rw [if_pos he]
          constructor
          · intro r hr
            simp at hr
          · intro msg _
            exact ⟨iterations, by simp, he⟩
        · rw [if_neg he]
          by_cases hs : (env.respond (iterations + 1)).stopToolUse = false
              ∨ env.hasExecutor = false
          · rw [if_pos hs]
            constructor
            · intro r hr hex
              simp only [Except.ok.injEq] at hr
              rw [← hr] at hex
              simp at hex
            · intro msg hmsg
              simp at hmsg
          · rw [if_neg hs]
            obtain ⟨ihok, iherr⟩ := ih (iterations + 1) (updText env (iterations + 1) lastText)
            constructor
            · intro r hr hex
              have htext := ihok r hr hex
              simpa [lastTextFrom, updText] using htext
            · intro msg hmsg
              obtain ⟨b, hb, hberr⟩ := iherr msg hmsg
              exact ⟨b, List.mem_cons_of_mem _ hb, hberr⟩

/-- Claim C4 (amended): when `callClaude` terminates because the
iteration cap or the wall-clock deadline was reached it raises no error
(errors arise only from an error-carrying model response) and makes no
further model-service calls; it returns the accumulated response text
unchanged when any exists, and the "ran out of time" marker text only
when no text was accumulated. -/
theorem callClaude_exhaustion_result (env : LoopEnv) (deadline : Nat) :
    (∀ r, (callClaude env deadline).outcome = .ok r → r.exhausted = true →
      r.text =
        (if lastTextFrom env "" (callClaude env deadline).calls ≠ ""
         then lastTextFrom env "" (callClaude env deadline).calls
         else exhaustionText)) ∧
    (∀ msg, (callClaude env deadline).outcome = .error msg →
      ∃ b ∈ (callClaude env deadline).calls,
        (env.respond (b + 1)).hasError = true) ∧
    (callClaude env deadline).calls.length ≤ MAX_TOOL_ITERATIONS ∧
    (∀ b ∈ (callClaude env deadline).calls, env.elapsedAt b ≤ deadline) :=
  ⟨(loopGo_exhaustion env deadline MAX_TOOL_ITERATIONS 0 "").1,
   (loopGo_exhaustion env deadline MAX_TOOL_ITERATIONS 0 "").2,
   (loopGo_bound env deadline MAX_TOOL_ITERATIONS 0 "").1,
   (loopGo_bound env deadline MAX_TOOL_ITERATIONS 0 "").2⟩

/-- Witness for the amended C4: on the `envC4` run that exhausts the
deadline, the returned text is exactly the replayed accumulated text. -/
theorem callClaude_exhaustion_result_witness :
    ({ text := "hello", iterations := 1, exhausted := true } : LoopResult).text =
      (if lastTextFrom envC4 "" (callClaude envC4 10).calls ≠ ""
       then lastTextFrom envC4 "" (callClaude envC4 10).calls
       else exhaustionText) :=
  (callClaude_exhaustion_result envC4 10).1
    { text := "hello", iterations := 1, exhausted := true } rfl rfl

/-- When every attempt up to and including the last allowed one is rate
limited, the loop sleeps through the whole delay schedule and fails with
the distinct rate-limited error. -/
theorem fetchGo_all429 (responses : Nat → HttpResponse) :
    ∀ (delays : List Nat) (attempt : Nat),
      (∀ j, j ≤ delays.length → (responses (attempt + j)).status = 429) →
      fetchGo responses attempt delays =
        (.rateLimitedErr, attempt + delays.length + 1, delays) := by
  intro delays
  induction delays with
  | nil =>
      intro attempt h
      have h0 : (responses attempt).status = 429 := by simpa using h 0 (by simp)
      simp [fetchGo, settleResponse, respOk, h0]
  | cons d rest ih =>
      intro attempt h
      have h0 : (responses attempt).status = 429 := by simpa using h 0 (by simp)
      unfold fetchGo
      rw [if_pos (by simp [h0])]
      have hrec := ih (attempt + 1) (fun j hj => by
        have := h (j + 1) (by simpa using Nat.succ_le_succ hj)
        simpa [Nat.add_assoc, Nat.add_comm, Nat.add_left_comm] using this)
      rw [hrec]
      simp [Prod.ext_iff]
      omega

/-- When the first `k` attempts are rate limited and attempt `k` is not,
the loop sleeps only the first `k` delays and settles attempt `k`'s
response. -/
theorem fetchGo_settles (responses : Nat → HttpResponse) :
    ∀ (delays : List Nat) (attempt k : Nat),
      k ≤ delays.length →
      (∀ j, j < k → (responses (attempt + j)).status = 429) →
      (responses (attempt + k)).status ≠ 429 →
      fetchGo responses attempt delays =
        (settleResponse (responses (attempt + k)), attempt + k + 1,
          delays.take k) := by
  intro delays
  induction delays with
  | nil =>
      intro attempt k hk _ _
      have hk0 : k = 0 := Nat.le_zero.mp hk
      subst hk0
      simp [fetchGo]
  | cons d rest ih =>
      intro attempt k hk h429 hne
      cases k with
      | zero =>
          unfold fetchGo
          rw [if_neg (by simpa using hne)]
          simp
      | succ k' =>
          have h0 : (responses attempt).status = 429 := by
            simpa using h429 0 (Nat.succ_pos _)
          unfold fetchGo
          rw [if_pos (by simp [h0])]
          have hrec := ih (attempt + 1) k' (by simpa using Nat.le_of_succ_le_succ hk)
            (fun j hj => by
              have := h429 (j + 1) (Nat.succ_lt_succ hj)
              simpa [Nat.add_assoc, Nat.add_comm, Nat.add_left_comm] using this)
            (by
              have : attempt + 1 + k' = attempt + (k' + 1) := by omega
              rw [this]
              exact hne)
          rw [hrec]
          have harith : attempt + 1 + k' = attempt + (k' + 1) := by omega
          simp [Prod.ext_iff, harith]

/-- Claim C9: `fetchWithRetry` retries a 429 after each delay of the
schedule and, once the schedule is exhausted, fails with the distinct
rate-limited error; a 401 reached at any attempt fails immediately with
the distinct invalid-key error (no further attempts, no further sleeps);
any other non-2xx response fails with the generic service error carrying
its status and body. -/
theorem fetchWithRetry_error_taxonomy (responses : Nat → HttpResponse)
    (delays : List Nat) :
    ((∀ j, j ≤ delays.length → (responses j).status = 429) →
      fetchWithRetry responses delays =
        (.rateLimitedErr, delays.length + 1, delays)) ∧
    (∀ k, k ≤ delays.length → (∀ j, j < k → (responses j).status = 429) →
      (responses k).status = 401 →
      fetchWithRetry responses delays =
        (.invalidKeyErr, k + 1, delays.take k)) ∧
    (∀ k, k ≤ delays.length → (∀ j, j < k → (responses j).status = 429) →
      respOk (responses k).status = false →
      (responses k).status ≠ 429 → (responses k).status ≠ 401 →
      fetchWithRetry responses delays =
        (.apiErr (responses k).status (responses k).body, k + 1,
          delays.take k)) := by
  refine ⟨?_, ?_, ?_⟩
  · intro h
    have := fetchGo_all429 responses delays 0 (fun j hj => by simpa using h j hj)
    simpa [fetchWithRetry] using this
  · intro k hk h429 h401
    have hne : (responses (0 + k)).status ≠ 429 := by
      simp [h401]
    have := fetchGo_settles responses delays 0 k hk
      (fun j hj => by simpa using h429 j hj) hne
    have hsettle : settleResponse (responses (0 + k)) = .invalidKeyErr := by
      simp only [Nat.zero_add]
      simp [settleResponse, respOk, h401]
    rw [fetchWithRetry, this, hsettle]
    simp
  · intro k hk h429 hnok hne429 hne401
    have hne : (responses (0 + k)).status ≠ 429 := by simpa using hne429
    have := fetchGo_settles responses delays 0 k hk
      (fun j hj => by simpa using h429 j hj) hne
    have hsettle : settleResponse (responses (0 + k)) =
        .apiErr (responses k).status (responses k).body := by
      simp only [Nat.zero_add]
      simp [settleResponse, hnok, hne429, hne401]
    rw [fetchWithRetry, this, hsettle]
    simp

/-- A network oracle: one rate-limit response, then a 401. -/
def respOnce429Then401 : Nat → HttpResponse :=
  fun i => if i = 0 then { status := 429, body := "" }
           else { status := 401, body := "unauthorized" }

/-- Witness for C9: after a single 429 and one sleep, the 401 fails
immediately with the invalid-key error. -/
theorem fetchWithRetry_error_taxonomy_witness :
    fetchWithRetry respOnce429Then401 DEFAULT_RETRY_DELAYS =
      (.invalidKeyErr, 2, [2000]) := by
  have h := (fetchWithRetry_error_taxonomy respOnce429Then401 DEFAULT_RETRY_DELAYS).2.1
    1 (by decide)
    (fun j hj => by
      have hj0 : j = 0 := by omega
      subst hj0
      rfl)
    rfl
  simpa [DEFAULT_RETRY_DELAYS] using h

/-- Claim C3: on a request for a registered tool with
`requiresConfirmation = true`, `executeTool` never runs the executor; it
persists a pending action whose id is the fresh draw and whose
`expiresAt` is `now + PENDING_ACTION_TTL_MS` (appended as a brand-new
record when the fresh id is indeed unused), reports
`wasConfirmationGated = true` with the new id, and returns a result
string that instructs the human to `/approve` or `/reject`. -/
theorem executeTool_gated (registry : Registry) (block : ToolUseBlock)
    (chatId : Int) (store : PendingStore) (now : Nat) (freshId : String)
    (tool : RegisteredTool)
    (hfind : getTool registry block.name = some tool)
    (hconf : tool.requiresConfirmation = true) :
    (executeTool registry block chatId store now freshId).1.wasConfirmationGated = true ∧
    (executeTool registry block chatId store now freshId).1.pendingActionId = some freshId ∧
    (∀ tn inp, Ev.executorRun tn inp ∉
      (executeTool registry block chatId store now freshId).2.1) ∧
    (executeTool registry block chatId store now freshId).2.1 =
      [Ev.pendingSaved (gatedAction block chatId now freshId)] ∧
    (gatedAction block chatId now freshId).expiresAt = now + PENDING_ACTION_TTL_MS ∧
    (gatedAction block chatId now freshId).createdAt = now ∧
    (gatedAction block chatId now freshId).toolName = block.name ∧
    (gatedAction block chatId now freshId).input = block.input ∧
    (freshId ∉ List.map (fun a => a.id) store →
      (executeTool registry block chatId store now freshId).2.2 =
        store ++ [gatedAction block chatId now freshId]) ∧
    (executeTool registry block chatId store now freshId).1.result.result =
      gatePrompt block.name block.input ∧
    ("/approve".toList <:+:
      (executeTool registry block chatId store now freshId).1.result.result.toList) ∧
    ("/reject".toList <:+:
      (executeTool registry block chatId store now freshId).1.result.result.toList) := by
  have hexec : executeTool registry block chatId store now freshId =
      ({ result := { result := gatePrompt block.name block.input, isError := none }
         wasConfirmationGated := true
         pendingActionId := some freshId },
       [Ev.pendingSaved (gatedAction block chatId now freshId)],
       savePendingAction store (gatedAction block chatId now freshId)) := by
    unfold executeTool
    rw [hfind]
    simp [hconf]
  have hsplit : (gatePrompt block.name block.input).toList =
      ("This action requires user approval. I've queued it for confirmation. Action: "
        ++ block.name ++ " — " ++ summarizeInput block.name block.input).toList
      ++ gateInstr.toList := by
    simp [gatePrompt, String.toList, String.data_append]
  have happrove : "/approve".toList <:+:
      (gatePrompt block.name block.input).toList := by
    have h1 : "/approve".toList <:+: gateInstr.toList := by decide
    obtain ⟨s, t, hst⟩ := h1
    refine ⟨("This action requires user approval. I've queued it for confirmation. Action: "
      ++ block.name ++ " — " ++ summarizeInput block.name block.input).toList ++ s, t, ?_⟩
    rw [hsplit, ← hst]
    simp
  have hreject : "/reject".toList <:+:
      (gatePrompt block.name block.input).toList := by
    have h1 : "/reject".toList <:+: gateInstr.toList := by decide
    obtain ⟨s, t, hst⟩ := h1
    refine ⟨("This action requires user approval. I've queued it for confirmation. Action: "
      ++ block.name ++ " — " ++ summarizeInput block.name block.input).toList ++ s, t, ?_⟩
    rw [hsplit, ← hst]
    simp
  refine ⟨by rw [hexec], by rw [hexec], ?_, by rw [hexec], rfl, rfl, rfl, rfl, ?_,
    by rw [hexec], by rw [hexec]; exact happrove, by rw [hexec]; exact hreject⟩
  · intro tn inp hmem
    rw [hexec] at hmem
    simp at hmem
  · intro hfresh
    rw [hexec]
    show savePendingAction store (gatedAction block chatId now freshId) =
      store ++ [gatedAction block chatId now freshId]
    unfold savePendingAction
    have : List.filter
        (fun a => !sameKey (gatedAction block chatId now freshId).chatId
          (gatedAction block chatId now freshId).id a) store = store := by
      apply List.filter_eq_self.mpr
      intro a ha
      have hid : a.id ≠ freshId := by
        intro hid
        exact hfresh (List.mem_map.mpr ⟨a, ha, hid⟩)
      simp [sameKey, gatedAction, hid]
    rw [this]

/-- A gated tweet tool and a registry holding it, used in witnesses. -/
def tweetTool : RegisteredTool :=
  { definition := { name := "post_tweet", description := "Post a tweet" }
    execute := fun _ => .ok { result := "posted", isError := none }
    requiresConfirmation := true }

def regTweet : Registry := [tweetTool]

def tweetBlock : ToolUseBlock :=
  { id := "toolu_1", name := "post_tweet", input := [("text", "hi")] }

/-- Witness for C3: the gated tweet request is gated, not executed, and
persisted with the 10-minute TTL. -/
theorem executeTool_gated_witness :
    (executeTool regTweet tweetBlock 7 [] 1000 "fresh-1").1.wasConfirmationGated = true ∧
    (executeTool regTweet tweetBlock 7 [] 1000 "fresh-1").1.pendingActionId = some "fresh-1" ∧
    (executeTool regTweet tweetBlock 7 [] 1000 "fresh-1").2.2 =
      [gatedAction tweetBlock 7 1000 "fresh-1"] := by
  have h := executeTool_gated regTweet tweetBlock 7 [] 1000 "fresh-1" tweetTool rfl rfl
  exact ⟨h.1, h.2.1, by simpa using h.2.2.2.2.2.2.2.2.1 (by simp)⟩

theorem newestFirst_trans : ∀ a b c : PendingAction,
    newestFirst a b = true → newestFirst b c = true → newestFirst a c = true := by
  intro a b c
  simp only [newestFirst, decide_eq_true_eq]
  omega

theorem newestFirst_total : ∀ a b : PendingAction,
    (newestFirst a b || newestFirst b a) = true := by
  intro a b
  simp only [newestFirst, Bool.or_eq_true, decide_eq_true_eq]
  omega

/-- The head of `loadPendingActions` is a non-expired record of the chat
that is still present in the post-expiry store and has the maximal
`createdAt` among all the chat's surviving records. -/
theorem head_loaded_mem (store : PendingStore) (chatId : Int) (now : Nat)
    (a : PendingAction) (rest : List PendingAction)
    (h : (loadPendingActions store chatId now).1 = a :: rest) :
    a ∈ store ∧ a.chatId = chatId ∧ ¬ a.expiresAt < now ∧
    a ∈ (loadPendingActions store chatId now).2 ∧
    (∀ b ∈ store, b.chatId = chatId → ¬ b.expiresAt < now →
      b.createdAt ≤ a.createdAt) := by
  have hmem : a ∈ chatPending store chatId now := by
    have : a ∈ (loadPendingActions store chatId now).1 := by
      rw [h]
      exact List.mem_cons_self a rest
    exact List.mem_mergeSort.mp this
  have hkept := List.mem_filter.mp hmem
  have hlisted := List.mem_filter.mp hkept.1
  have hstore : a ∈ store := hlisted.1
  have hchat : a.chatId = chatId := by
    have := hlisted.2
    simpa using this
  have hexp : ¬ a.expiresAt < now := by
    have := hkept.2
    simpa using this
  refine ⟨hstore, hchat, hexp, ?_, ?_⟩
  · show a ∈ List.filter
      (fun b => !(b.chatId == chatId && decide (b.expiresAt < now))) store
    refine List.mem_filter.mpr ⟨hstore, ?_⟩
    simp [hchat, hexp]
  · intro b hb hbchat hbexp
    have hbkept : b ∈ chatPending store chatId now := by
      refine List.mem_filter.mpr ⟨List.mem_filter.mpr ⟨hb, by simp [hbchat]⟩, by simp [hbexp]⟩
    have hbsorted : b ∈ a :: rest := by
      rw [← h]
      exact List.mem_mergeSort.mpr hbkept
    rcases List.mem_cons.mp hbsorted with hba | hbr
    · simp [hba]
    · have hsorted : List.Pairwise (fun x y => newestFirst x y = true)
          ((loadPendingActions store chatId now).1) :=
        List.sorted_mergeSort newestFirst_trans newestFirst_total
          (chatPending store chatId now)
      rw [h] at hsorted
      have := (List.pairwise_cons.mp hsorted).1 b hbr
      simpa [newestFirst] using this

/-- Counterexample to claim C1 as stated: approving the pending tweet of
`wLive` executes the tool executor *first* and deletes the pending
record only afterwards — the trace has the execution at index 0 and the
deletion at index 1, so deletion does not precede execution. -/
theorem delete_before_execute_counterexample :
    (approveCommand regTweet [wLive] 7 1000).events =
      [Ev.executorRun "post_tweet" [("text", "hi")],
       Ev.pendingDeleted "a-live",
       Ev.sentMessage "Action approved and executed!\n\nposted"] ∧
    ¬ (∀ (i j : Nat)
        (hi : i < (approveCommand regTweet [wLive] 7 1000).events.length)
        (hj : j < (approveCommand regTweet [wLive] 7 1000).events.length),
        (∃ tn inp, (approveCommand regTweet [wLive] 7 1000).events.get ⟨i, hi⟩ =
          Ev.executorRun tn inp) →
        (∃ aid, (approveCommand regTweet [wLive] 7 1000).events.get ⟨j, hj⟩ =
          Ev.pendingDeleted aid) →
        j < i) := by
  have hev : (approveCommand regTweet [wLive] 7 1000).events =
      [Ev.executorRun "post_tweet" [("text", "hi")],
       Ev.pendingDeleted "a-live",
       Ev.sentMessage "Action approved and executed!\n\nposted"] := by
    simp [approveCommand, loadPendingActions, chatPending, wLive,
      executeToolDirect, getTool, regTweet, tweetTool, catchResult]
  refine ⟨hev, ?_⟩
  intro hord
  have hi : 0 < (approveCommand regTweet [wLive] 7 1000).events.length := by
    rw [hev]; simp
  have hj : 1 < (approveCommand regTweet [wLive] 7 1000).events.length := by
    rw [hev]; simp
  have h01 := hord 0 1 hi hj
    ⟨"post_tweet", [("text", "hi")], by rw [List.get_of_eq hev]; rfl⟩
    ⟨"a-live", by rw [List.get_of_eq hev]; rfl⟩
  omega

/-- Claim C1 (amended): in the approve operation the executor is invoked
*before* the PendingAction record is deleted (execute-then-delete, the
reverse of the claimed delete-before-execute): in every approve trace an
execution event strictly precedes every deletion event, the approved
record is still present in the store when the executor is invoked, and
the record is deleted by the end of the operation. -/
theorem approve_executes_before_delete (registry : Registry)
    (store : PendingStore) (chatId : Int) (now : Nat) :
    (∀ (i j : Nat)
      (hi : i < (approveCommand registry store chatId now).events.length)
      (hj : j < (approveCommand registry store chatId now).events.length),
      (∃ tn inp, (approveCommand registry store chatId now).events.get ⟨i, hi⟩ =
        Ev.executorRun tn inp) →
      (∃ aid, (approveCommand registry store chatId now).events.get ⟨j, hj⟩ =
        Ev.pendingDeleted aid) →
      i < j) ∧
    (∀ a rest, (loadPendingActions store chatId now).1 = a :: rest →
      a ∈ (loadPendingActions store chatId now).2 ∧
      (∀ b ∈ (approveCommand registry store chatId now).newStore,
        sameKey chatId a.id b = false)) := by
  constructor
  · intro i j hi hj hexec hdel
    rcases hload : (loadPendingActions store chatId now).1 with _ | ⟨a, rest⟩
    · have hev : (approveCommand registry store chatId now).events =
          [Ev.sentMessage "No pending actions to approve."] := by
        simp [approveCommand, hload]
      obtain ⟨tn, inp, hget⟩ := hexec
      have hlen : (approveCommand registry store chatId now).events.length = 1 := by
        rw [hev]
        rfl
      have hi0 : i = 0 := by omega
      subst hi0
      rw [List.get_of_eq hev] at hget
      simp at hget
    · rcases hgt : getTool registry a.toolName with _ | tool
      · have hev : (approveCommand registry store chatId now).events =
            [Ev.pendingDeleted a.id,
             Ev.sentMessage ("Action failed: " ++ ("Unknown tool: " ++ a.toolName))] := by
          simp [approveCommand, hload, executeToolDirect, hgt]
        obtain ⟨tn, inp, hget⟩ := hexec
        have hlen : (approveCommand registry store chatId now).events.length = 2 := by
          rw [hev]
          rfl
        have hi01 : i = 0 ∨ i = 1 := by omega
        rw [List.get_of_eq hev] at hget
        rcases hi01 with hi0 | hi1
        · subst hi0
          simp at hget
        · subst hi1
          simp at hget
      · have hev : (approveCommand registry store chatId now).events =
            Ev.executorRun a.toolName a.input ::
              [Ev.pendingDeleted a.id,
               Ev.sentMessage (if (catchResult (tool.execute a.input)).isError.getD false
                 then "Action failed: " ++ (catchResult (tool.execute a.input)).result
                 else "Action approved and executed!\n\n"
                   ++ (catchResult (tool.execute a.input)).result)] := by
          simp [approveCommand, hload, executeToolDirect, hgt]
        obtain ⟨tn, inp, hget⟩ := hexec
        obtain ⟨aid, hget2⟩ := hdel
        have hlen : (approveCommand registry store chatId now).events.length = 3 := by
          rw [hev]
          rfl
        rw [List.get_of_eq hev] at hget hget2
        have hi0 : i = 0 := by
          by_contra hne
          have h12 : i = 1 ∨ i = 2 := by omega
          rcases h12 with h1 | h2
          · subst h1
            simp at hget
          · subst h2
            simp at hget
        have hj1 : j = 1 := by
          by_contra hne
          have h02 : j = 0 ∨ j = 2 := by omega
          rcases h02 with h0 | h2
          · subst h0
            simp at hget2
          · subst h2
            simp at hget2
        omega
  · intro a rest hload
    have hh := head_loaded_mem store chatId now a rest hload
    refine ⟨hh.2.2.2.1, ?_⟩
    intro b hb
    have hns : (approveCommand registry store chatId now).newStore =
        deletePendingAction (loadPendingActions store chatId now).2 chatId a.id := by
      simp [approveCommand, hload]
    rw [hns] at hb
    have := (List.mem_filter.mp hb).2
    simpa using this

/-- Witness for the amended C1: in the concrete approve trace of `wLive`
the execution (index 0) precedes the deletion (index 1), and the
approved record is gone from the resulting store. -/
theorem approve_executes_before_delete_witness :
    (0 : Nat) < 1 ∧
    (∀ b ∈ (approveCommand regTweet [wLive] 7 1000).newStore,
      sameKey 7 wLive.id b = false) := by
  constructor
  · refine (approve_executes_before_delete regTweet [wLive] 7 1000).1 0 1 ?_ ?_ ?_ ?_
    · simp [approveCommand, loadPendingActions, chatPending, wLive,
        executeToolDirect, getTool, regTweet, tweetTool]
    · simp [approveCommand, loadPendingActions, chatPending, wLive,
        executeToolDirect, getTool, regTweet, tweetTool]
    · refine ⟨"post_tweet", [("text", "hi")], ?_⟩
      simp [approveCommand, loadPendingActions, chatPending, wLive,
        executeToolDirect, getTool, regTweet, tweetTool, catchResult]
    · refine ⟨"a-live", ?_⟩
      simp [approveCommand, loadPendingActions, chatPending, wLive,
        executeToolDirect, getTool, regTweet, tweetTool, catchResult]
  · exact ((approve_executes_before_delete regTweet [wLive] 7 1000).2 wLive []
      (by simp [loadPendingActions, chatPending, wLive])).2

/-- Claim C7: the approve operation acts on the most recently created
non-expired PendingAction of the conversation; with none it reports
"nothing to approve"; otherwise it runs the tool's executor directly on
the stored input, deletes the record, and returns the executor's result,
surfacing an executor exception as a normal `isError = true` tool-error
result. -/
theorem approve_most_recent_semantics (registry : Registry)
    (store : PendingStore) (chatId : Int) (now : Nat) :
    ((loadPendingActions store chatId now).1 = [] →
      (approveCommand registry store chatId now).result = none ∧
      (approveCommand registry store chatId now).events =
        [Ev.sentMessage "No pending actions to approve."]) ∧
    (∀ a rest, (loadPendingActions store chatId now).1 = a :: rest →
      ¬ a.expiresAt < now ∧ a.chatId = chatId ∧ a ∈ store ∧
      (∀ b ∈ store, b.chatId = chatId → ¬ b.expiresAt < now →
        b.createdAt ≤ a.createdAt) ∧
      (approveCommand registry store chatId now).result =
        some (executeToolDirect registry a.toolName a.input).1 ∧
      (∀ b ∈ (approveCommand registry store chatId now).newStore,
        sameKey chatId a.id b = false) ∧
      (∀ tool, getTool registry a.toolName = some tool →
        ∀ msg, tool.execute a.input = ExecOutcome.throws msg →
          (approveCommand registry store chatId now).result =
            some { result := "Tool error: " ++ msg, isError := some true })) := by
  constructor
  · intro hload
    constructor <;> simp [approveCommand, hload]
  · intro a rest hload
    have hh := head_loaded_mem store chatId now a rest hload
    have hres : (approveCommand registry store chatId now).result =
        some (executeToolDirect registry a.toolName a.input).1 := by
      simp [approveCommand, hload]
    refine ⟨hh.2.2.1, hh.2.1, hh.1, hh.2.2.2.2, hres, ?_, ?_⟩
    · intro b hb
      have hns : (approveCommand registry store chatId now).newStore =
          deletePendingAction (loadPendingActions store chatId now).2 chatId a.id := by
        simp [approveCommand, hload]
      rw [hns] at hb
      have := (List.mem_filter.mp hb).2
      simpa using this
    · intro tool hgt msg hthrow
      rw [hres]
      simp [executeToolDirect, hgt, hthrow, catchResult]

/-- A registry whose tweet tool always throws, used in the C7 witness. -/
def throwingTweetTool : RegisteredTool :=
  { definition := { name := "post_tweet", description := "Post a tweet" }
    execute := fun _ => .throws "network down"
    requiresConfirmation := true }

def regThrowing : Registry := [throwingTweetTool]

/-- Witness for C7: approving `wLive` against the throwing executor
returns the executor's exception as an `isError = true` tool result, and
on an empty store there is nothing to approve. -/
theorem approve_most_recent_semantics_witness :
    (approveCommand regThrowing [wLive] 7 1000).result =
      some { result := "Tool error: network down", isError := some true } ∧
    (approveCommand regThrowing [] 7 1000).result = none := by
  constructor
  · exact ((approve_most_recent_semantics regThrowing [wLive] 7 1000).2 wLive []
      (by simp [loadPendingActions, chatPending, wLive])).2.2.2.2.2.2
      throwingTweetTool rfl "network down" rfl
  · exact ((approve_most_recent_semantics regThrowing [] 7 1000).1
      (by simp [loadPendingActions, chatPending])).1

/-- Membership in an accumulator survives any fold whose step never drops
elements. -/
theorem mem_foldl_of_mem_acc {α : Type} (f : List String → α → List String)
    (hf : ∀ acc c x, x ∈ acc → x ∈ f acc c) :
    ∀ (l : List α) (acc : List String) (x : String),
      x ∈ acc → x ∈ List.foldl f acc l := by
  intro l
  induction l with
  | nil => intro acc x hx; simpa using hx
  | cons c cs ih => intro acc x hx; exact ih (f acc c) x (hf acc c x hx)

/-- An element added by the step of some list member survives the whole
fold. -/
theorem mem_foldl_of_elem {α : Type} (f : List String → α → List String)
    (hf : ∀ acc c x, x ∈ acc → x ∈ f acc c) :
    ∀ (l : List α) (acc : List String) (c : α), c ∈ l →
      ∀ x, (∀ acc2, x ∈ f acc2 c) → x ∈ List.foldl f acc l := by
  intro l
  induction l with
  | nil => intro acc c hc; simp at hc
  | cons c0 cs ih =>
      intro acc c hc x hx
      rcases List.mem_cons.mp hc with rfl | hc'
      · exact mem_foldl_of_mem_acc f hf cs (f acc c) x (hx acc)
      · exact ih (f acc c0) c hc' x hx

theorem kwStep_mono (lower : String) :
    ∀ (acc : List String) (ck : String × List String) (x : String),
      x ∈ acc → x ∈ kwStep lower acc ck := by
  intro acc ck x hx
  unfold kwStep
  split
  · exact List.mem_append_left _ hx
  · exact hx

theorem catStep_mono (name : String) :
    ∀ (acc2 : List String) (cat : String × List String) (x : String),
      x ∈ acc2 → x ∈ catStep name acc2 cat := by
  intro acc2 cat x hx
  unfold catStep
  split
  · exact List.mem_append_left _ hx
  · exact hx

theorem usedStep_mono :
    ∀ (acc : List String) (name x : String), x ∈ acc → x ∈ usedStep acc name := by
  intro acc name x hx
  unfold usedStep
  exact mem_foldl_of_mem_acc (catStep name) (catStep_mono name) TOOL_CATEGORIES
    (acc ++ [name]) x (List.mem_append_left _ hx)

/-- Core names are always selected. -/
theorem core_mem_selected (message : String) (used : Option (List String)) :
    ∀ n ∈ categoryTools "core", n ∈ selectedNames message used := by
  intro n hn
  unfold selectedNames
  cases used with
  | none =>
      exact mem_foldl_of_mem_acc (kwStep message.toLower) (kwStep_mono message.toLower)
        CATEGORY_KEYWORDS (categoryTools "core") n hn
  | some u =>
      exact mem_foldl_of_mem_acc usedStep usedStep_mono u _ n
        (mem_foldl_of_mem_acc (kwStep message.toLower) (kwStep_mono message.toLower)
          CATEGORY_KEYWORDS (categoryTools "core") n hn)

/-- A previously used tool name is always selected. -/
theorem used_mem_selected (message : String) (used : List String) :
    ∀ n ∈ used, n ∈ selectedNames message (some used) := by
  intro n hn
  unfold selectedNames
  refine mem_foldl_of_elem usedStep usedStep_mono used _ n hn n ?_
  intro acc2
  unfold usedStep
  exact mem_foldl_of_mem_acc (catStep n) (catStep_mono n) TOOL_CATEGORIES
    (acc2 ++ [n]) n (List.mem_append_right _ (List.mem_singleton_self _))

/-- The whole category of a previously used tool name is selected. -/
theorem used_category_mem_selected (message : String) (used : List String)
    (n : String) (hn : n ∈ used) (c : String × List String)
    (hc : c ∈ TOOL_CATEGORIES) (hnc : n ∈ c.2) :
    ∀ m ∈ c.2, m ∈ selectedNames message (some used) := by
  intro m hm
  unfold selectedNames
  refine mem_foldl_of_elem usedStep usedStep_mono used _ n hn m ?_
  intro acc2
  unfold usedStep
  refine mem_foldl_of_elem (catStep n) (catStep_mono n) TOOL_CATEGORIES
    (acc2 ++ [n]) c hc m ?_
  intro a2
  unfold catStep
  rw [if_pos (List.elem_iff.mpr hnc)]
  exact List.mem_append_right _ hm

/-- A selected name that belongs to a registered tool shows up in the
filtered output. -/
theorem selected_to_output (registry : Registry) (message : String)
    (used : Option (List String)) (n : String)
    (hn : n ∈ selectedNames message used) (t : RegisteredTool)
    (ht : t ∈ registry) (hname : t.definition.name = n) :
    n ∈ List.map (fun d => d.name)
      (getFilteredToolDefinitions registry message used) := by
  refine List.mem_map.mpr ⟨t.definition, ?_, hname⟩
  unfold getFilteredToolDefinitions
  refine List.mem_map.mpr ⟨t, ?_, rfl⟩
  refine List.mem_filter.mpr ⟨ht, ?_⟩
  exact List.elem_iff.mpr (hname ▸ hn)

/-- Claim C6: for every context text and every previously-used name set
(whose relevant tool names are registered), the filter output always
contains the core category's names, contains each previously used name
and its entire category, and is a subset of the registered definitions. -/
theorem filter_core_used_subset (registry : Registry) (message : String)
    (used : List String)
    (hcat : ∀ c ∈ TOOL_CATEGORIES, ∀ n ∈ c.2, ∃ t ∈ registry, t.definition.name = n)
    (hused : ∀ n ∈ used, ∃ t ∈ registry, t.definition.name = n) :
    (∀ n ∈ categoryTools "core",
      n ∈ List.map (fun d => d.name)
        (getFilteredToolDefinitions registry message (some used))) ∧
    (∀ n ∈ used,
      n ∈ List.map (fun d => d.name)
        (getFilteredToolDefinitions registry message (some used)) ∧
      (∀ c ∈ TOOL_CATEGORIES, n ∈ c.2 → ∀ m ∈ c.2,
        m ∈ List.map (fun d => d.name)
          (getFilteredToolDefinitions registry message (some used)))) ∧
    (∀ d ∈ getFilteredToolDefinitions registry message (some used),
      d ∈ getToolDefinitions registry) := by
  have hcore' : ∀ n ∈ categoryTools "core", ∃ t ∈ registry, t.definition.name = n := by
    intro n hn
    exact hcat ("core", categoryTools "core") (by simp [TOOL_CATEGORIES, categoryTools]) n hn
  refine ⟨?_, ?_, ?_⟩
  · intro n hn
    obtain ⟨t, ht, hname⟩ := hcore' n hn
    exact selected_to_output registry message (some used) n
      (core_mem_selected message (some used) n hn) t ht hname
  · intro n hn
    constructor
    · obtain ⟨t, ht, hname⟩ := hused n hn
      exact selected_to_output registry message (some used) n
        (used_mem_selected message used n hn) t ht hname
    · intro c hc hnc m hm
      obtain ⟨t, ht, hname⟩ := hcat c hc m hm
      exact selected_to_output registry message (some used) m
        (used_category_mem_selected message used n hn c hc hnc m hm) t ht hname
  · intro d hd
    unfold getFilteredToolDefinitions at hd
    obtain ⟨t, htf, hdt⟩ := List.mem_map.mp hd
    exact List.mem_map.mpr ⟨t, (List.mem_filter.mp htf).1, hdt⟩

/-- Every tool name listed in some category. -/
def allCategoryToolNames : List String :=
  (List.map Prod.snd TOOL_CATEGORIES).flatten

def mkPlainTool (n : String) : RegisteredTool :=
  { definition := { name := n, description := "" }
    execute := fun _ => .ok { result := "", isError := none }
    requiresConfirmation := false }

/-- A registry carrying one tool per categorised name, as after
`initializeTools`. -/
def fullRegistry : Registry := List.map mkPlainTool allCategoryToolNames

theorem fullRegistry_covers :
    ∀ n ∈ allCategoryToolNames, ∃ t ∈ fullRegistry, t.definition.name = n := by
  intro n hn
  exact ⟨mkPlainTool n, List.mem_map.mpr ⟨n, hn, rfl⟩, rfl⟩

/-- Witness for C6: over the full registry, with message `"hi"` and
previously used `post_tweet`, the output names include the core
`web_search`, the used `post_tweet`, and its category sibling
`reply_to_tweet`. -/
theorem filter_core_used_subset_witness :
    "web_search" ∈ List.map (fun d => d.name)
      (getFilteredToolDefinitions fullRegistry "hi" (some ["post_tweet"])) ∧
    "post_tweet" ∈ List.map (fun d => d.name)
      (getFilteredToolDefinitions fullRegistry "hi" (some ["post_tweet"])) ∧
    "reply_to_tweet" ∈ List.map (fun d => d.name)
      (getFilteredToolDefinitions fullRegistry "hi" (some ["post_tweet"])) := by
  have hcat : ∀ c ∈ TOOL_CATEGORIES, ∀ n ∈ c.2,
      ∃ t ∈ fullRegistry, t.definition.name = n := by
    intro c hc n hn
    refine fullRegistry_covers n ?_
    exact List.mem_flatten.mpr ⟨c.2, List.mem_map.mpr ⟨c, hc, rfl⟩, hn⟩
  have hused : ∀ n ∈ ["post_tweet"], ∃ t ∈ fullRegistry, t.definition.name = n := by
    intro n hn
    rcases List.mem_singleton.mp hn with rfl
    exact fullRegistry_covers "post_tweet" (by decide)
  have h := filter_core_used_subset fullRegistry "hi" ["post_tweet"] hcat hused
  refine ⟨h.1 "web_search" (by decide), ?_, ?_⟩
  · exact (h.2.1 "post_tweet" (by decide)).1
  · exact (h.2.1 "post_tweet" (by decide)).2
      ("twitter", ["post_tweet", "reply_to_tweet", "delete_tweet", "get_mentions",
        "get_tweet_analytics"]) (by decide) (by decide) "reply_to_tweet" (by decide)

end Moltworker
